/-
Verification of the tabular grid-widget core: column-name formatting and
parsing, selection and motion algebra, range iteration, key-binding
translation, click handling, and divider hit-testing.

Each Rust function is shallowly embedded as an executable Lean definition:
usize becomes Nat (with explicit saturation where the source saturates),
u32 and i16 arithmetic is modelled with explicit wrap/saturation at the
matching power of two, f32 values are modelled as exact rationals, and
fallible parsing returns Except.
-/
import Mathlib

namespace Tabular

/-! ## Column names (src/tabular/utils.rs) -/

/-- u32::MAX, the bound enforced by checked_mul / checked_add. -/
def u32Max : Nat := 4294967295

/-- 2^32, the wrap modulus of u32 arithmetic. -/
def u32Mod : Nat := 4294967296

/-- usize::MAX on a 64-bit target. -/
def usizeMax : Nat := 18446744073709551615

/-- usize::saturating_add. -/
def satAdd (a b : Nat) : Nat := min (a + b) usizeMax

/-- The digit list produced by the loop of to_column_name, least significant
digit first: push n % 26, replace n by n / 26, stop when that is zero,
otherwise subtract one and continue. -/
def toColDigits (n : Nat) : List Nat :=
  if _h : n / 26 = 0 then [n % 26]
  else n % 26 :: toColDigits (n / 26 - 1)
termination_by n
decreasing_by omega

/-- to_column_name: push digit characters, then reverse. -/
def toColumnName (n : Nat) : List Char :=
  ((toColDigits n).map (fun d => Char.ofNat (65 + d))).reverse

/-- The ASCII-lowercase fold at the top of the parse loop:
if c.is_ascii_lowercase, subtract the case distance. -/
def foldUpper (c : Char) : Char :=
  if 97 ≤ c.toNat ∧ c.toNat ≤ 122 then Char.ofNat (c.toNat - 32) else c

/-- The per-character addend (c as u32) - (b'A' as u32) + 1, computed with
u32 wrapping semantics. -/
def colStep (c : Char) : Nat :=
  ((foldUpper c).toNat + (u32Mod - 64)) % u32Mod

/-- The parse loop of from_column_name: column = column * 26 + step, with
checked_mul / checked_add failing past u32::MAX. -/
def fromColLoop (s : String) (column : Nat) : List Char → Except String Nat
  | [] => .ok column
  | c :: rest =>
    if u32Max < column * 26 then
      .error ("Column index overflow while parsing: " ++ s)
    else if u32Max < column * 26 + colStep c then
      .error ("Column index overflow while parsing: " ++ s)
    else fromColLoop s (column * 26 + colStep c) rest

/-- from_column_name: run the loop from 0, reject a zero result, and return
column - 1. (usize::try_from on a u32 cannot fail on a 64-bit target.) -/
def fromColumnName (s : List Char) : Except String Nat :=
  match fromColLoop (String.mk s) 0 s with
  | .error e => .error e
  | .ok column =>
    if column = 0 then .error ("Invalid column name: " ++ String.mk s)
    else .ok (column - 1)

/-- The unbounded accumulated value of the parse loop started at `a`: what
`column` would be with mathematical-integer accumulation (each character
still contributes its u32-wrapped step). -/
def colValFrom (a : Nat) (s : List Char) : Nat :=
  s.foldl (fun a c => a * 26 + colStep c) a

/-- The unbounded accumulated value of the whole parse. -/
def colVal (s : List Char) : Nat := colValFrom 0 s

lemma colValFrom_ge (a : Nat) (l : List Char) : a ≤ colValFrom a l := by
  induction l generalizing a with
  | nil => simp [colValFrom]
  | cons c tl ih =>
    have hcons : colValFrom a (c :: tl) = colValFrom (a * 26 + colStep c) tl := by
      rw [colValFrom, colValFrom, List.foldl_cons]
    rw [hcons]
    have h1 : a ≤ a * 26 + colStep c := by omega
    exact le_trans h1 (ih (a * 26 + colStep c))

lemma fromColLoop_ok (s : String) (a : Nat) (l : List Char)
    (h : colValFrom a l ≤ u32Max) :
    fromColLoop s a l = .ok (colValFrom a l) := by
  induction l generalizing a with
  | nil => simp [fromColLoop, colValFrom]
  | cons c tl ih =>
    have hcons : colValFrom a (c :: tl) = colValFrom (a * 26 + colStep c) tl := by
      rw [colValFrom, colValFrom, List.foldl_cons]
    have hg := colValFrom_ge (a * 26 + colStep c) tl
    rw [hcons] at h ⊢
    have hm : ¬ u32Max < a * 26 := by omega
    have ha : ¬ u32Max < a * 26 + colStep c := by omega
    rw [fromColLoop]
    simp only [hm, ha, if_false]
    exact ih _ h

lemma fromColLoop_err (s : String) (a : Nat) (l : List Char)
    (h0 : a ≤ u32Max) (h : u32Max < colValFrom a l) :
    ∃ e, fromColLoop s a l = .error e := by
  induction l generalizing a with
  | nil => simp [colValFrom] at h; omega
  | cons c tl ih =>
    have hcons : colValFrom a (c :: tl) = colValFrom (a * 26 + colStep c) tl := by
      rw [colValFrom, colValFrom, List.foldl_cons]
    rw [hcons] at h
    rw [fromColLoop]
    by_cases hm : u32Max < a * 26
    · exact ⟨"Column index overflow while parsing: " ++ s, by simp [hm]⟩
    · by_cases ha : u32Max < a * 26 + colStep c
      · exact ⟨"Column index overflow while parsing: " ++ s, by simp [hm, ha]⟩
      · simp only [hm, ha, if_false]
        exact ih _ (by omega) h

lemma toColDigits_lt (n : Nat) : ∀ d ∈ toColDigits n, d < 26 := by
  induction n using Nat.strong_induction_on with
  | _ n ih =>
    rw [toColDigits]
    split
    · intro d hd
      simp only [List.mem_singleton] at hd
      subst hd
      exact Nat.mod_lt _ (by norm_num)
    · intro d hd
      rcases List.mem_cons.1 hd with h | h
      · subst h
        exact Nat.mod_lt _ (by norm_num)
      · exact ih (n / 26 - 1) (by omega) d h

lemma foldr_toColDigits (n : Nat) :
    (toColDigits n).foldr (fun d a => a * 26 + (d + 1)) 0 = n + 1 := by
  induction n using Nat.strong_induction_on with
  | _ n ih =>
    rw [toColDigits]
    split
    · simp only [List.foldr_cons, List.foldr_nil]
      omega
    · simp only [List.foldr_cons]
      rw [ih (n / 26 - 1) (by omega)]
      omega

lemma colStep_ofNat : ∀ d : Nat, d < 26 → colStep (Char.ofNat (65 + d)) = d + 1 := by
  decide

lemma colVal_toColumnName (n : Nat) : colVal (toColumnName n) = n + 1 := by
  have key : ∀ l : List Nat, (∀ d ∈ l, d < 26) →
      l.foldr (fun d a => a * 26 + colStep (Char.ofNat (65 + d))) 0 =
      l.foldr (fun d a => a * 26 + (d + 1)) 0 := by
    intro l
    induction l with
    | nil => intro _; rw [List.foldr_nil, List.foldr_nil]
    | cons d tl ihl =>
      intro hl
      rw [List.foldr_cons, List.foldr_cons,
        ihl (fun x hx => hl x (List.mem_cons_of_mem _ hx)),
        colStep_ofNat d (hl d (List.mem_cons_self _ _))]
  unfold colVal colValFrom toColumnName
  rw [List.foldl_reverse, List.foldr_map]
  rw [key _ (toColDigits_lt n), foldr_toColDigits]

/-- C1: for every n in [0, 18277], parsing the formatted column name
round-trips: from_column_name (to_column_name n) = Ok n, and the naming is
the documented bijective base-26 one: 0 formats as "A", 25 as "Z",
26 as "AA". -/
theorem toColumnName_roundtrip :
    (∀ n : Nat, n ≤ 18277 → fromColumnName (toColumnName n) = .ok n)
    ∧ toColumnName 0 = [ 'A' ] ∧ toColumnName 25 = [ 'Z' ]
    ∧ toColumnName 26 = [ 'A', 'A' ] := by
  refine ⟨fun n h => ?_, by simp [toColumnName, toColDigits],
    by simp [toColumnName, toColDigits], by rw [toColumnName, toColDigits, toColDigits]; simp⟩
  have hval : colValFrom 0 (toColumnName n) = n + 1 := colVal_toColumnName n
  have hle : colValFrom 0 (toColumnName n) ≤ u32Max := by
    rw [hval]; unfold u32Max; omega
  unfold fromColumnName
  rw [fromColLoop_ok _ _ _ hle, hval]
  simp

/-- Witness for C1: the round-trip at n = 26. -/
theorem toColumnName_roundtrip_witness :
    26 ≤ 18277 ∧ fromColumnName (toColumnName 26) = .ok 26 :=
  ⟨by decide, toColumnName_roundtrip.1 26 (by decide)⟩

/-- Counterexample for C2: from_column_name does not reject non-letter
characters. The non-letter input "[" parses successfully to Ok(26), the
same index as "AA". -/
theorem fromColumnName_nonletter_ok :
    ( '[' ).isAlpha = false ∧ fromColumnName [ '[' ] = .ok 26 :=
  ⟨by decide, by rfl⟩

/-- C2 (amended): from_column_name returns a descriptive error exactly when
the accumulated value of the parse loop is zero (empty input, or characters
whose u32-wrapped step is zero, such as the at-sign) or exceeds u32::MAX;
characters are never validated as letters, and on every other input the
function returns Ok(value - 1). Under release (wrapping) semantics it never
panics; the embedding is total. -/
theorem fromColumnName_error_characterization (s : List Char) :
    (colVal s = 0 ∨ u32Max < colVal s → ∃ e, fromColumnName s = .error e)
    ∧ (0 < colVal s → colVal s ≤ u32Max → fromColumnName s = .ok (colVal s - 1)) := by
  unfold colVal
  constructor
  · rintro (h0 | hover)
    · refine ⟨"Invalid column name: " ++ String.mk s, ?_⟩
      unfold fromColumnName
      rw [fromColLoop_ok _ _ _ (by rw [h0]; unfold u32Max; omega), h0]
      simp
    · obtain ⟨e, he⟩ := fromColLoop_err (String.mk s) 0 s (by unfold u32Max; omega) hover
      refine ⟨e, ?_⟩
      unfold fromColumnName
      rw [he]
  · intro h1 h2
    unfold fromColumnName
    rw [fromColLoop_ok _ _ _ h2]
    simp only [Nat.pos_iff_ne_zero] at h1
    simp [h1]

/-- Witness for C2 (amended): the characterization evaluated on "[". -/
theorem fromColumnName_error_characterization_witness :
    (0 < colVal [ '[' ] ∧ colVal [ '[' ] ≤ u32Max)
    ∧ fromColumnName [ '[' ] = .ok (colVal [ '[' ] - 1) :=
  ⟨⟨by decide, by decide⟩,
    (fromColumnName_error_characterization [ '[' ]).2 (by decide) (by decide)⟩

/-! ## Shared enums (src/tabular/utils.rs, src/tabular/update.rs) -/

/-- An axis of a Table. -/
inductive Axis where
  | column
  | row
deriving DecidableEq, Repr

/-- The possible statuses of a Table. -/
inductive Status where
  | focused
  | unfocused
  | disabled
deriving DecidableEq, Repr

/-- A cursor movement on the table (Motion). End is spelled end_ because
end is a Lean keyword. -/
inductive Motion where
  | left
  | right
  | up
  | down
  | home
  | end_
  | forward
  | back
  | documentStart
  | documentEnd
deriving DecidableEq, Repr

/-- Motion::widen. -/
def Motion.widen : Motion → Motion
  | .home => .documentStart
  | .end_ => .documentEnd
  | m => m

/-! ## Key-binding translation (src/tabular/update.rs) -/

/-- The named keys the binding layer inspects; every other named key is
collapsed into `other` (they are all treated alike by the source). -/
inductive NamedKey where
  | f2
  | enter
  | delete
  | backspace
  | escape
  | arrowLeft
  | arrowRight
  | arrowUp
  | arrowDown
  | home
  | end_
  | other
deriving DecidableEq, Repr

/-- keyboard::Key, after as_ref: a named key or a produced character. -/
inductive Key where
  | named (k : NamedKey)
  | character (s : String)
deriving DecidableEq, Repr

/-- The keyboard modifier queries the source calls, modelled as independent
booleans: command, shift, alt, jump and macos_command are the five
platform-derived predicates of the external keyboard API. -/
structure Modifiers where
  command : Bool
  shift : Bool
  alt : Bool
  jump : Bool
  macosCommand : Bool
deriving DecidableEq, Repr

/-- A key press (KeyPress). -/
structure KeyPress where
  key : Key
  modifiers : Modifiers
  text : Option String
  status : Status
deriving DecidableEq, Repr

/-- The semantic Binding produced from a key press. Custom's message payload
is irrelevant to the translation and is dropped. -/
inductive Binding where
  | copy
  | cut
  | paste
  | moveSelection (m : Motion)
  | expandSelection (m : Motion)
  | selectAll
  | enter
  | delete
  | focus
  | unfocus
  | clickedOutside
  | custom
  | startEdit
deriving DecidableEq, Repr

/-- The free function motion(key) at the bottom of update.rs. -/
def motionOfKey : NamedKey → Option Motion
  | .arrowLeft => some .left
  | .arrowRight => some .right
  | .arrowUp => some .up
  | .arrowDown => some .down
  | .home => some .home
  | .end_ => some .end_
  | _ => none

/-- Binding::from_key_press. The leading guard returns None unless the
status is Focused; afterwards the key is matched. A Character arm whose
modifier guard fails falls through to the final arm, which only produces
motions for named keys. -/
def Binding.fromKeyPress (event : KeyPress) : Option Binding :=
  if event.status ≠ Status.focused then none
  else
    match event.key with
    | .named .f2 =>
      match event.status with
      | .focused => some .startEdit
      | .unfocused => some .focus
      | .disabled => none
    | .named .enter => some .enter
    | .named .delete => some .delete
    | .named .backspace => some .delete
    | .named .escape => some .focus
    | .character str =>
      if str = "c" && event.modifiers.command then some .copy
      else if str = "x" && event.modifiers.command then some .cut
      else if str = "v" && event.modifiers.command && !event.modifiers.alt then some .paste
      else if str = "a" && event.modifiers.command then some .selectAll
      else none
    | .named nk =>
      match motionOfKey nk with
      | none => none
      | some m =>
        let m := if event.modifiers.macosCommand then
            match m with
            | .left => .home
            | .right => .end_
            | mm => mm
          else m
        let m := if event.modifiers.jump then m.widen else m
        some (if event.modifiers.shift then .expandSelection m else .moveSelection m)

/-- Counterexample for C3: an F2 press while Unfocused yields no binding at
all (the leading status guard returns None before the F2 arm can produce
Focus), refuting the claimed Unfocused/Focus case. -/
theorem fromKeyPress_f2_unfocused :
    Binding.fromKeyPress
      { key := .named .f2, modifiers := ⟨false, false, false, false, false⟩,
        text := none, status := .unfocused } = none := rfl

/-- C3 (amended): for every key press of F2, from_key_press yields StartEdit
when the status is Focused, and yields no binding when the status is
Unfocused or Disabled: the match arm mapping Unfocused to Focus is
unreachable behind the leading status guard. -/
theorem fromKeyPress_f2 (mods : Modifiers) (text : Option String) :
    Binding.fromKeyPress ⟨.named .f2, mods, text, .focused⟩ = some .startEdit
    ∧ Binding.fromKeyPress ⟨.named .f2, mods, text, .unfocused⟩ = none
    ∧ Binding.fromKeyPress ⟨.named .f2, mods, text, .disabled⟩ = none :=
  ⟨rfl, rfl, rfl⟩

/-! ## References and ranges (src/tabular/reference.rs) -/

/-- The standard Reference implementation Address: an (x, y) cell
coordinate. -/
structure Address where
  x : Nat
  y : Nat
deriving DecidableEq, Repr

/-- The standard ReferenceRange implementation Range: a start cell and an
optional end cell (None meaning a single cell). The end field is spelled
endCell because end is a Lean keyword. -/
structure Range where
  start : Address
  endCell : Option Address
deriving DecidableEq, Repr

/-- ReferenceRange::contains (trait default): inclusive on both axes,
against the unnormalized start/end. -/
def Range.contains (r : Range) (o : Address) : Bool :=
  let s := r.start
  let e := r.endCell.getD s
  (decide (s.x ≤ o.x) && decide (o.x ≤ e.x))
    && (decide (s.y ≤ o.y) && decide (o.y ≤ e.y))

/-- Range::normalize: swap the two x components when out of order, then the
two y components; the result always carries Some end. -/
def Range.normalize (r : Range) : Range :=
  let s := r.start
  let e := r.endCell.getD s
  let px := if e.x < s.x then (e.x, s.x) else (s.x, e.x)
  let py := if e.y < s.y then (e.y, s.y) else (s.y, e.y)
  { start := { x := px.1, y := py.1 }, endCell := some { x := px.2, y := py.2 } }

/-- Range::iter: the inclusive x range (smaller bound first) crossed with
the inclusive y range, x outermost. -/
def Range.iter (r : Range) : List Address :=
  let s := r.start
  let e := r.endCell.getD s
  let xlo := if s.x ≤ e.x then s.x else e.x
  let xhi := if s.x ≤ e.x then e.x else s.x
  let ylo := if s.y ≤ e.y then s.y else e.y
  let yhi := if s.y ≤ e.y then e.y else s.y
  (List.range' xlo (xhi + 1 - xlo)).flatMap fun x =>
    (List.range' ylo (yhi + 1 - ylo)).map fun y => { x := x, y := y }

lemma length_addrProduct (xs ys : List Nat) :
    (xs.flatMap fun x => ys.map fun y => Address.mk x y).length
      = xs.length * ys.length := by
  induction xs with
  | nil => simp
  | cons x tl ih =>
    simp only [List.flatMap_cons, List.length_append, List.length_map, ih,
      List.length_cons]
    ring

lemma mem_addrProduct (xs ys : List Nat) (a : Address) :
    a ∈ (xs.flatMap fun x => ys.map fun y => Address.mk x y)
      ↔ a.x ∈ xs ∧ a.y ∈ ys := by
  simp only [List.mem_flatMap, List.mem_map]
  constructor
  · rintro ⟨x, hx, y, hy, rfl⟩
    exact ⟨hx, hy⟩
  · rintro ⟨hx, hy⟩
    exact ⟨a.x, hx, a.y, hy, rfl⟩

lemma nodup_addrProduct (xs ys : List Nat) (hx : xs.Nodup) (hy : ys.Nodup) :
    (xs.flatMap fun x => ys.map fun y => Address.mk x y).Nodup := by
  induction xs with
  | nil => simp
  | cons x tl ih =>
    rw [List.flatMap_cons]
    rcases List.nodup_cons.1 hx with ⟨hxmem, hxtl⟩
    refine List.Nodup.append (hy.map ?_) (ih hxtl) ?_
    · intro a b hab
      injection hab
    · intro a ha hb
      rw [List.mem_map] at ha
      rw [mem_addrProduct] at hb
      rcases ha with ⟨y, _, rfl⟩
      exact hxmem hb.1

/-- Counterexample for C8: on the unnormalized range with start (1,0) and
end (0,0), iter yields the cell (0,0) but contains (0,0) is false, because
contains tests against the raw start/end. -/
theorem rangeIter_contains_cex :
    (⟨0, 0⟩ : Address) ∈ (Range.mk ⟨1, 0⟩ (some ⟨0, 0⟩)).iter
    ∧ (Range.mk ⟨1, 0⟩ (some ⟨0, 0⟩)).contains ⟨0, 0⟩ = false := by
  decide

lemma rangeIter_eq (r : Range) :
    r.iter = (List.range' (min r.start.x ((r.endCell.getD r.start).x))
        (max r.start.x ((r.endCell.getD r.start).x) + 1
          - min r.start.x ((r.endCell.getD r.start).x))).flatMap
      fun x => (List.range' (min r.start.y ((r.endCell.getD r.start).y))
        (max r.start.y ((r.endCell.getD r.start).y) + 1
          - min r.start.y ((r.endCell.getD r.start).y))).map
        fun y => Address.mk x y := by
  unfold Range.iter
  dsimp only
  rcases le_or_lt r.start.x ((r.endCell.getD r.start).x) with hx | hx <;>
    rcases le_or_lt r.start.y ((r.endCell.getD r.start).y) with hy | hy
  · rw [if_pos hx, if_pos hx, if_pos hy, if_pos hy, min_eq_left hx,
      max_eq_right hx, min_eq_left hy, max_eq_right hy]
  · rw [if_pos hx, if_pos hx, if_neg (not_le.mpr hy), if_neg (not_le.mpr hy),
      min_eq_left hx, max_eq_right hx, min_eq_right hy.le, max_eq_left hy.le]
  · rw [if_neg (not_le.mpr hx), if_neg (not_le.mpr hx), if_pos hy, if_pos hy,
      min_eq_right hx.le, max_eq_left hx.le, min_eq_left hy, max_eq_right hy]
  · rw [if_neg (not_le.mpr hx), if_neg (not_le.mpr hx), if_neg (not_le.mpr hy),
      if_neg (not_le.mpr hy), min_eq_right hx.le, max_eq_left hx.le,
      min_eq_right hy.le, max_eq_left hy.le]

lemma normalize_eq (r : Range) :
    r.normalize = Range.mk
      ⟨min r.start.x ((r.endCell.getD r.start).x),
        min r.start.y ((r.endCell.getD r.start).y)⟩
      (some ⟨max r.start.x ((r.endCell.getD r.start).x),
        max r.start.y ((r.endCell.getD r.start).y)⟩) := by
  unfold Range.normalize
  dsimp only
  rcases lt_or_le ((r.endCell.getD r.start).x) r.start.x with hx | hx <;>
    rcases lt_or_le ((r.endCell.getD r.start).y) r.start.y with hy | hy
  · rw [if_pos hx, if_pos hy, min_eq_right hx.le, max_eq_left hx.le,
      min_eq_right hy.le, max_eq_left hy.le]
  · rw [if_pos hx, if_neg (not_lt.mpr hy), min_eq_right hx.le,
      max_eq_left hx.le, min_eq_left hy, max_eq_right hy]
  · rw [if_neg (not_lt.mpr hx), if_pos hy, min_eq_left hx, max_eq_right hx,
      min_eq_right hy.le, max_eq_left hy.le]
  · rw [if_neg (not_lt.mpr hx), if_neg (not_lt.mpr hy), min_eq_left hx,
      max_eq_right hx, min_eq_left hy, max_eq_right hy]

/-- C8 (amended): for every Range r, iter yields exactly width * height
References (width and height the inclusive extents of the rectangle spanned
by start and end), all distinct, and every yielded Reference satisfies
contains of the normalized range r.normalize (for unnormalized ranges the
raw contains can reject every yielded cell). -/
theorem rangeIter_count_distinct_contains (r : Range) :
    r.iter.length
      = (max r.start.x ((r.endCell.getD r.start).x) + 1
          - min r.start.x ((r.endCell.getD r.start).x))
        * (max r.start.y ((r.endCell.getD r.start).y) + 1
          - min r.start.y ((r.endCell.getD r.start).y))
    ∧ r.iter.Nodup
    ∧ ∀ a ∈ r.iter, r.normalize.contains a = true := by
  rw [rangeIter_eq, normalize_eq]
  refine ⟨?_, ?_, ?_⟩
  · rw [length_addrProduct, List.length_range', List.length_range']
  · exact nodup_addrProduct _ _ (List.nodup_range' _ _) (List.nodup_range' _ _)
  · intro a ha
    rw [mem_addrProduct, List.mem_range'_1, List.mem_range'_1] at ha
    simp only [Range.contains, Option.getD_some, Bool.and_eq_true,
      decide_eq_true_eq]
    omega

/-- Witness for C8 (amended): the count, distinctness and normalized
containment at the concrete unnormalized range (1,0)-(0,0). -/
theorem rangeIter_count_distinct_contains_witness :
    (⟨0, 0⟩ : Address) ∈ (Range.mk ⟨1, 0⟩ (some ⟨0, 0⟩)).iter
    ∧ (Range.mk ⟨1, 0⟩ (some ⟨0, 0⟩)).normalize.contains ⟨0, 0⟩ = true :=
  ⟨by decide,
    (rangeIter_count_distinct_contains (Range.mk ⟨1, 0⟩ (some ⟨0, 0⟩))).2.2
      ⟨0, 0⟩ (by decide)⟩

/-! ## Actions and the concrete Tabular store
(src/tabular/action.rs, src/tabular/content.rs, src/tabular/content/list.rs) -/

/-- An edit action (Edit). -/
inductive Edit where
  | delete
deriving DecidableEq, Repr

/-- An interaction with a Table editor (Action), instantiated at the default
Address / Range reference types; f32 payloads are exact rationals. -/
inductive Action where
  | moveSelection (m : Motion)
  | expandSelection (m : Motion)
  | select (r : Range)
  | selectAll
  | edit (e : Edit)
  | resizeDivider (axis : Axis) (index : Nat) (size : Rat)
  | phantom (k : Address)
deriving DecidableEq, Repr

/-- An instruction to the app (Instruction). -/
inductive Instruction where
  | paste
  | cut
  | copy
  | activate (k : Address)
deriving DecidableEq, Repr

/-- The default Tabular implementation Content (content/list.rs),
instantiated at T = String cells (the default Cell content): a list of
columns, each a list of row entries, plus the selection and the declared
sizes. The source range and dirty-flag fields are carried but inert here. -/
structure Content where
  columns : List (List String)
  selection : Range
  colWidths : List Rat
  rowHeights : List Rat
  range : Range
  dirty : Bool
deriving DecidableEq, Repr

/-- row_count: the length of the first column, or 0. -/
def Content.rowCount (t : Content) : Nat :=
  ((t.columns.head?).map List.length).getD 0

/-- column_count: the number of columns. -/
def Content.columnCount (t : Content) : Nat := t.columns.length

/-- select_range. -/
def Content.selectRange (t : Content) (r : Range) : Content :=
  { t with selection := r }

/-- select_all: start (0,0), end (column_count, row_count), exactly as the
source builds it. -/
def Content.selectAll (t : Content) : Content :=
  { t with selection := Range.mk ⟨0, 0⟩ (some ⟨t.columnCount, t.rowCount⟩) }

/-- One step of the Edit::Delete loop: get_mut(cell), and when present set
the entry to its default. -/
def setCellDefault (cols : List (List String)) (a : Address) : List (List String) :=
  match cols.get? a.x with
  | none => cols
  | some col =>
    match col.get? a.y with
    | none => cols
    | some _ => cols.set a.x (col.set a.y "")

/-- Tabular::move_selection (trait default body, content.rs lines 107-196).
usize saturating_sub is Nat subtraction; saturating_add is satAdd. -/
def Content.moveSelection (t : Content) (motion : Motion) : Content :=
  let startCol := t.selection.start.x
  let startRow := t.selection.start.y
  let endRef := t.selection.endCell.getD t.selection.start
  let endCol := endRef.x
  let endRow := endRef.y
  let firstCol := min startCol endCol
  let firstRow := min startRow endRow
  let lastCol := max startCol endCol
  let lastRow := max startRow endRow
  let maxCol := t.columnCount - 1
  let maxRow := t.rowCount - 1
  let motion := match motion with
    | .forward => if t.selection.endCell.isNone then Motion.right else Motion.forward
    | .back => if t.selection.endCell.isNone then Motion.left else Motion.back
    | m => m
  let newCell : Address := match motion with
    | .forward =>
      let numCols := lastCol - firstCol + 1
      let nextCol := (startCol - firstCol + 1) % numCols + firstCol
      let nextRow := if nextCol = firstCol then satAdd startRow 1 else startRow
      let wrappedRow := if lastRow < nextRow then firstRow else nextRow
      ⟨min nextCol maxCol, min wrappedRow maxRow⟩
    | .back =>
      let prevCol := if startCol = firstCol then lastCol else startCol - 1
      let prevRow :=
        if prevCol = lastCol ∧ startRow = firstRow then lastRow
        else if prevCol = lastCol then startRow - 1
        else startRow
      let wrappedRow := if prevRow < firstRow then lastRow else prevRow
      ⟨min prevCol maxCol, min wrappedRow maxRow⟩
    | .up => ⟨min startCol maxCol, startRow - 1⟩
    | .down => ⟨min startCol maxCol, min (satAdd startRow 1) maxRow⟩
    | .right => ⟨min (satAdd startCol 1) maxCol, min startRow maxRow⟩
    | .left => ⟨startCol - 1, min startRow maxRow⟩
    | .home => ⟨min firstCol maxCol, min startRow maxRow⟩
    | .end_ => ⟨min lastCol maxCol, min startRow maxRow⟩
    | .documentStart => ⟨0, 0⟩
    | .documentEnd => ⟨maxCol, maxRow⟩
  t.selectRange (Range.mk newCell none)

/-- usize as i16: truncate to 16 bits and sign-interpret. -/
def i16Of (n : Nat) : Int :=
  if n % 65536 < 32768 then ((n % 65536 : Nat) : Int)
  else ((n % 65536 : Nat) : Int) - 65536

/-- i16::saturating_add, on already-in-range operands. -/
def i16SatAdd (a b : Int) : Int := max (-32768) (min 32767 (a + b))

/-- i16 as usize: sign-extend and reinterpret as a 64-bit unsigned value. -/
def usizeOfI16 (i : Int) : Nat := (i % 18446744073709551616).toNat

/-- Tabular::expand_selection (trait default body, content.rs lines
199-226), with its i16 casts and saturating arithmetic. -/
def Content.expandSelection (t : Content) (motion : Motion) : Content :=
  let add : Int × Int :=
    match motion with
    | .left => (-1, 0)
    | .right => (1, 0)
    | .up => (0, -1)
    | .down => (0, 1)
    | _ => (0, 0)
  let maxCol := t.columnCount - 1
  let maxRow := t.rowCount - 1
  let start := t.selection.start
  let endRef := t.selection.endCell.getD start
  let newY := usizeOfI16 (min (max (i16SatAdd (i16Of endRef.y) add.2) 0) (i16Of maxRow))
  let newX := usizeOfI16 (min (max (i16SatAdd (i16Of endRef.x) add.1) 0) (i16Of maxCol))
  t.selectRange (Range.mk start (some ⟨newX, newY⟩))

/-- Tabular::perform (trait default body). ResizeDivider clamps the size
below by zero (f32 clamp(0.0, INFINITY) on a rational), then adds it to the
indexed entry when the index is in range. -/
def Content.perform (t : Content) (a : Action) : Content :=
  match a with
  | .edit .delete =>
    { t with columns := t.selection.iter.foldl setCellDefault t.columns }
  | .select r => t.selectRange r
  | .selectAll => t.selectAll
  | .moveSelection m => t.moveSelection m
  | .expandSelection m => t.expandSelection m
  | .resizeDivider axis index size =>
    let size := max size 0
    match axis with
    | .column =>
      { t with colWidths :=
          match t.colWidths.get? index with
          | none => t.colWidths
          | some old => t.colWidths.set index (old + size) }
    | .row =>
      { t with rowHeights :=
          match t.rowHeights.get? index with
          | none => t.rowHeights
          | some old => t.rowHeights.set index (old + size) }
  | .phantom _ => t

/-- A 3 x 3 table with empty cells and the default single-cell selection. -/
def table3x3 : Content :=
  { columns := List.replicate 3 (List.replicate 3 ""),
    selection := Range.mk ⟨0, 0⟩ none,
    colWidths := List.replicate 3 1,
    rowHeights := List.replicate 3 1,
    range := Range.mk ⟨0, 0⟩ none,
    dirty := true }

/-- A 5 x 5 table with empty cells and the default single-cell selection. -/
def table5x5 : Content :=
  { columns := List.replicate 5 (List.replicate 5 ""),
    selection := Range.mk ⟨0, 0⟩ none,
    colWidths := List.replicate 5 1,
    rowHeights := List.replicate 5 1,
    range := Range.mk ⟨0, 0⟩ none,
    dirty := true }


/-- The tab-through-selection successor described by the spec, written from
its words: advance the column; at the rectangle's right edge wrap to the
first column of the next row; from the rectangle's last cell wrap back to
its first cell. -/
def specForwardSucc (s e : Address) : Address :=
  let fc := min s.x e.x
  let lc := max s.x e.x
  let fr := min s.y e.y
  let lr := max s.y e.y
  if s.x < lc then ⟨s.x + 1, s.y⟩
  else if s.y < lr then ⟨fc, s.y + 1⟩
  else ⟨fc, fr⟩

lemma satAdd_one_eq (a : Nat) (h : a < usizeMax) : satAdd a 1 = a + 1 := by
  unfold usizeMax at h
  unfold satAdd usizeMax
  omega

/-- C5: on a multi-cell selection inside the table, move_selection(Forward)
replaces the selection by the single cell that is the column-advancing,
row-wrapping successor of the active cell (the range's start) within the
selection rectangle; on a single-cell selection Forward behaves exactly as
Right; in particular (1,1) inside block (0,0)-(1,1) wraps to (0,0), and in
a 3 x 3 table Forward from single-cell (0,0) yields (1,0). -/
theorem moveSelection_forward :
    (∀ (t : Content) (s e : Address), t.selection = Range.mk s (some e) →
      t.rowCount ≤ usizeMax →
      s.x ≤ t.columnCount - 1 → s.y ≤ t.rowCount - 1 →
      e.x ≤ t.columnCount - 1 → e.y ≤ t.rowCount - 1 →
      (t.moveSelection .forward).selection = Range.mk (specForwardSucc s e) none)
    ∧ (∀ t : Content, t.selection.endCell = none →
      t.moveSelection .forward = t.moveSelection .right)
    ∧ ((table3x3.selectRange (Range.mk ⟨1, 1⟩ (some ⟨0, 0⟩))).moveSelection
        .forward).selection = Range.mk ⟨0, 0⟩ none
    ∧ ((table3x3.selectRange (Range.mk ⟨0, 0⟩ none)).moveSelection
        .forward).selection = Range.mk ⟨1, 0⟩ none := by
  refine ⟨?_, ?_, by decide, by decide⟩
  · intro t s e hsel hR hs1 hs2 he1 he2
    have hsat : satAdd s.y 1 = s.y + 1 := by
      apply satAdd_one_eq
      unfold usizeMax at hR ⊢
      omega
    unfold Content.moveSelection
    rw [hsel]
    dsimp only
    simp only [Option.isNone_some, Bool.false_eq_true, if_false, Option.getD_some]
    unfold Content.selectRange
    dsimp only
    unfold specForwardSucc
    dsimp only
    rcases Nat.lt_or_ge s.x (max s.x e.x) with hxl | hxl
    · have hmod : (s.x - min s.x e.x + 1) % (max s.x e.x - min s.x e.x + 1) = 1 := by
        have h1 : s.x - min s.x e.x + 1 = 1 := by omega
        rw [h1]
        exact Nat.mod_eq_of_lt (by omega)
      simp only [hmod, hsat]
      split_ifs <;> simp only [Range.mk.injEq, Address.mk.injEq, and_true] <;>
        constructor <;> omega
    · have hmod : (s.x - min s.x e.x + 1) % (max s.x e.x - min s.x e.x + 1) = 0 := by
        have h1 : s.x - min s.x e.x + 1 = max s.x e.x - min s.x e.x + 1 := by omega
        rw [h1, Nat.mod_self]
      simp only [hmod, hsat]
      split_ifs <;> simp only [Range.mk.injEq, Address.mk.injEq, and_true] <;>
        constructor <;> omega
  · intro t h
    unfold Content.moveSelection
    rw [h]
    simp only [Option.isNone_none, if_true]

/-- Witness for C5: the selection (0,1)-(1,0) in the 3 x 3 table has its
Forward successor computed by the theorem. -/
theorem moveSelection_forward_witness :
    (table3x3.selectRange (Range.mk ⟨0, 1⟩ (some ⟨1, 0⟩))).selection
        = Range.mk ⟨0, 1⟩ (some ⟨1, 0⟩)
    ∧ (((table3x3.selectRange (Range.mk ⟨0, 1⟩ (some ⟨1, 0⟩))).moveSelection
        .forward).selection = Range.mk (specForwardSucc ⟨0, 1⟩ ⟨1, 0⟩) none) :=
  ⟨by decide,
    moveSelection_forward.1 (table3x3.selectRange (Range.mk ⟨0, 1⟩ (some ⟨1, 0⟩)))
      ⟨0, 1⟩ ⟨1, 0⟩ (by decide) (by decide) (by decide) (by decide) (by decide)
      (by decide)⟩

/-- Counterexample for C6: with the (host-settable) selection start (0,5)
in a 3 x 3 table, move_selection(Up) produces (0,4), whose row exceeds
max_row = 2: the Up branch never clamps the row from above. -/
theorem moveSelection_up_escapes_bounds :
    ((table3x3.selectRange (Range.mk ⟨0, 5⟩ none)).moveSelection .up).selection
        = Range.mk ⟨0, 4⟩ none
    ∧ table3x3.rowCount - 1 = 2
    ∧ ¬ (4 ≤ table3x3.rowCount - 1) := by decide

/-- C6 (amended): whenever the current selection's start lies within
bounds, move_selection produces a single-cell Range (end component None)
whose coordinates lie within [0, max_col] x [0, max_row]; an out-of-bounds
start can escape through the unclamped Up and Left branches. -/
theorem moveSelection_in_bounds (t : Content) (m : Motion)
    (h1 : t.selection.start.x ≤ t.columnCount - 1)
    (h2 : t.selection.start.y ≤ t.rowCount - 1) :
    (t.moveSelection m).selection.endCell = none
    ∧ (t.moveSelection m).selection.start.x ≤ t.columnCount - 1
    ∧ (t.moveSelection m).selection.start.y ≤ t.rowCount - 1 := by
  cases m <;> rcases hend : t.selection.endCell with _ | e <;>
    (unfold Content.moveSelection Content.selectRange
     simp only [hend, Option.isNone_none, Option.isNone_some,
       Bool.false_eq_true, if_true, if_false, Option.getD_some,
       Option.getD_none]) <;>
    refine ⟨?_, ?_, ?_⟩ <;>
    first
      | trivial
      | exact Nat.min_le_right _ _
      | omega

/-- Witness for C6 (amended): evaluated on the 3 x 3 table with its default
selection and the Up motion. -/
theorem moveSelection_in_bounds_witness :
    (table3x3.selection.start.x ≤ table3x3.columnCount - 1
      ∧ table3x3.selection.start.y ≤ table3x3.rowCount - 1)
    ∧ ((table3x3.moveSelection .up).selection.endCell = none
      ∧ (table3x3.moveSelection .up).selection.start.x ≤ table3x3.columnCount - 1
      ∧ (table3x3.moveSelection .up).selection.start.y ≤ table3x3.rowCount - 1) :=
  ⟨⟨by decide, by decide⟩,
    moveSelection_in_bounds table3x3 .up (by decide) (by decide)⟩

/-- The per-axis endpoint movement described by the spec for
expand_selection, written from its words over plain naturals: the matching
motions move the end coordinate by one, clamped into bounds; all other
motions leave it in place (still clamped). -/
def specExpandX (m : Motion) (ex maxCol : Nat) : Nat :=
  match m with
  | .left => min (ex - 1) maxCol
  | .right => min (ex + 1) maxCol
  | _ => min ex maxCol

/-- The y-axis companion of specExpandX. -/
def specExpandY (m : Motion) (ey maxRow : Nat) : Nat :=
  match m with
  | .up => min (ey - 1) maxRow
  | .down => min (ey + 1) maxRow
  | _ => min ey maxRow

/-- Counterexample for C7: expand_selection(Home) on the 5 x 5 table's
single-cell selection is not a no-op: it materializes the end endpoint,
turning Range{(0,0), None} into Range{(0,0), Some((0,0))}. -/
theorem expandSelection_home_not_noop :
    (table5x5.expandSelection .home).selection = Range.mk ⟨0, 0⟩ (some ⟨0, 0⟩)
    ∧ table5x5.selection = Range.mk ⟨0, 0⟩ none
    ∧ (table5x5.expandSelection .home).selection ≠ table5x5.selection := by
  decide

/-- C7 (amended): when the end endpoint (defaulted to start), max_col and
max_row all fit in i16, expand_selection moves only the end endpoint: one
cell along the matching axis for Left/Right/Up/Down and zero cells for
every other motion, in every case clamped into bounds and materialized to
Some; the start endpoint and all other fields are unchanged. In particular
Right from Range{start:(0,0)} in a 5 x 5 table extends the end to (1,0),
and the result contains (0,0) and (1,0) but not (2,0). -/
theorem expandSelection_characterization :
    (∀ (t : Content) (m : Motion),
      (t.selection.endCell.getD t.selection.start).x ≤ 32767 →
      (t.selection.endCell.getD t.selection.start).y ≤ 32767 →
      t.columnCount - 1 ≤ 32767 → t.rowCount - 1 ≤ 32767 →
      t.expandSelection m = t.selectRange (Range.mk t.selection.start
        (some ⟨specExpandX m (t.selection.endCell.getD t.selection.start).x
            (t.columnCount - 1),
          specExpandY m (t.selection.endCell.getD t.selection.start).y
            (t.rowCount - 1)⟩)))
    ∧ (table5x5.expandSelection .right).selection = Range.mk ⟨0, 0⟩ (some ⟨1, 0⟩)
    ∧ (table5x5.expandSelection .right).selection.contains ⟨0, 0⟩ = true
    ∧ (table5x5.expandSelection .right).selection.contains ⟨1, 0⟩ = true
    ∧ (table5x5.expandSelection .right).selection.contains ⟨2, 0⟩ = false := by
  refine ⟨?_, by decide, by decide, by decide, by decide⟩
  intro t m hx hy hc hr
  cases m <;>
    (unfold Content.expandSelection Content.selectRange specExpandX specExpandY
       i16Of i16SatAdd usizeOfI16
     dsimp only
     simp only [Content.mk.injEq, Range.mk.injEq, Option.some.injEq,
       Address.mk.injEq, and_true, true_and]) <;>
    constructor <;>
    split_ifs <;>
    omega

/-- Witness for C7 (amended): the characterization evaluated on the 5 x 5
table with the Right motion. -/
theorem expandSelection_characterization_witness :
    table5x5.expandSelection .right = table5x5.selectRange (Range.mk
      table5x5.selection.start
      (some ⟨specExpandX .right
          (table5x5.selection.endCell.getD table5x5.selection.start).x
          (table5x5.columnCount - 1),
        specExpandY .right
          (table5x5.selection.endCell.getD table5x5.selection.start).y
          (table5x5.rowCount - 1)⟩)) :=
  expandSelection_characterization.1 table5x5 .right (by decide) (by decide)
    (by decide) (by decide)

lemma getD_set_ge (l : List Rat) (idx : Nat) (d : Rat) (hd : 0 ≤ d) :
    ∀ j, l.getD j 0 ≤ (l.set idx (l.getD idx 0 + d)).getD j 0 := by
  induction l generalizing idx with
  | nil => intro j; simp
  | cons a tl ih =>
    intro j
    cases idx with
    | zero =>
      cases j with
      | zero => simp only [List.set_cons_zero, List.getD_cons_zero]; linarith
      | succ j => simp only [List.set_cons_zero, List.getD_cons_succ]; exact le_refl _
    | succ i =>
      cases j with
      | zero => simp only [List.set_cons_succ, List.getD_cons_zero]; exact le_refl _
      | succ j =>
        simp only [List.set_cons_succ, List.getD_cons_succ]
        exact ih i j

lemma set_get?_self (l : List Rat) (i : Nat) (v : Rat) (h : l.get? i = some v) :
    l.set i v = l := by
  induction l generalizing i with
  | nil => simp at h
  | cons a tl ih =>
    cases i with
    | zero =>
      simp only [List.get?_cons_zero, Option.some.injEq] at h
      rw [h, List.set_cons_zero]
    | succ i =>
      simp only [List.get?_cons_succ] at h
      rw [List.set_cons_succ, ih i h]

/-- C10: perform(ResizeDivider(axis, index, delta)) adds max(delta, 0) to
the stored size at that index on that axis; sizes never decrease; a
non-positive delta leaves the table unchanged; an out-of-range index leaves
the table unchanged; and nothing else (the other axis, the cells, the
selection) is ever touched. -/
theorem perform_resizeDivider (t : Content) (axis : Axis) (idx : Nat) (delta : Rat) :
    (∀ i, t.colWidths.getD i 0
        ≤ (t.perform (.resizeDivider axis idx delta)).colWidths.getD i 0)
    ∧ (∀ i, t.rowHeights.getD i 0
        ≤ (t.perform (.resizeDivider axis idx delta)).rowHeights.getD i 0)
    ∧ (delta ≤ 0 → t.perform (.resizeDivider axis idx delta) = t)
    ∧ (axis = .column → t.colWidths.length ≤ idx →
        t.perform (.resizeDivider axis idx delta) = t)
    ∧ (axis = .row → t.rowHeights.length ≤ idx →
        t.perform (.resizeDivider axis idx delta) = t)
    ∧ (axis = .column → idx < t.colWidths.length →
        (t.perform (.resizeDivider axis idx delta)).colWidths
          = t.colWidths.set idx (t.colWidths.getD idx 0 + max delta 0)
        ∧ (t.perform (.resizeDivider axis idx delta)).rowHeights = t.rowHeights)
    ∧ (axis = .row → idx < t.rowHeights.length →
        (t.perform (.resizeDivider axis idx delta)).rowHeights
          = t.rowHeights.set idx (t.rowHeights.getD idx 0 + max delta 0)
        ∧ (t.perform (.resizeDivider axis idx delta)).colWidths = t.colWidths)
    ∧ (t.perform (.resizeDivider axis idx delta)).columns = t.columns
    ∧ (t.perform (.resizeDivider axis idx delta)).selection = t.selection := by
  cases axis
  case column =>
    rcases hg : t.colWidths.get? idx with _ | v
    · have hlen : t.colWidths.length ≤ idx := List.get?_eq_none.mp hg
      have hperf : t.perform (.resizeDivider .column idx delta) = t := by
        unfold Content.perform
        dsimp only
        rw [hg]
      rw [hperf]
      refine ⟨?_, ?_, ?_, ?_, ?_, ?_, ?_, ?_, ?_⟩
      · exact fun i => le_refl _
      · exact fun i => le_refl _
      · exact fun _ => rfl
      · exact fun _ _ => rfl
      · intro h
        exact absurd h (by decide)
      · intro _ hlt
        exact absurd hlt (by omega)
      · intro h
        exact absurd h (by decide)
      · rfl
      · rfl
    · obtain ⟨hlt, -⟩ := List.get?_eq_some.mp hg
      have hgD : t.colWidths.getD idx 0 = v := by
        rw [List.getD_eq_getD_get?, hg, Option.getD_some]
      have hperf : t.perform (.resizeDivider .column idx delta)
          = { t with colWidths := t.colWidths.set idx (v + max delta 0) } := by
        unfold Content.perform
        dsimp only
        rw [hg]
      rw [hperf]
      refine ⟨?_, ?_, ?_, ?_, ?_, ?_, ?_, ?_, ?_⟩
      · intro i
        dsimp only
        rw [← hgD]
        exact getD_set_ge t.colWidths idx (max delta 0) (le_max_right delta 0) i
      · exact fun i => le_refl _
      · intro hd
        have hmax : max delta 0 = 0 := max_eq_right hd
        rw [hmax, add_zero, set_get?_self t.colWidths idx v hg]
      · intro _ hlen
        exact absurd hlt (by omega)
      · intro h
        exact absurd h (by decide)
      · intro _ _
        dsimp only
        rw [hgD]
        exact ⟨rfl, rfl⟩
      · intro h
        exact absurd h (by decide)
      · rfl
      · rfl
  case row =>
    rcases hg : t.rowHeights.get? idx with _ | v
    · have hlen : t.rowHeights.length ≤ idx := List.get?_eq_none.mp hg
      have hperf : t.perform (.resizeDivider .row idx delta) = t := by
        unfold Content.perform
        dsimp only
        rw [hg]
      rw [hperf]
      refine ⟨?_, ?_, ?_, ?_, ?_, ?_, ?_, ?_, ?_⟩
      · exact fun i => le_refl _
      · exact fun i => le_refl _
      · exact fun _ => rfl
      · intro h
        exact absurd h (by decide)
      · exact fun _ _ => rfl
      · intro h
        exact absurd h (by decide)
      · intro _ hlt
        exact absurd hlt (by omega)
      · rfl
      · rfl
    · obtain ⟨hlt, -⟩ := List.get?_eq_some.mp hg
      have hgD : t.rowHeights.getD idx 0 = v := by
        rw [List.getD_eq_getD_get?, hg, Option.getD_some]
      have hperf : t.perform (.resizeDivider .row idx delta)
          = { t with rowHeights := t.rowHeights.set idx (v + max delta 0) } := by
        unfold Content.perform
        dsimp only
        rw [hg]
      rw [hperf]
      refine ⟨?_, ?_, ?_, ?_, ?_, ?_, ?_, ?_, ?_⟩
      · exact fun i => le_refl _
      · intro i
        dsimp only
        rw [← hgD]
        exact getD_set_ge t.rowHeights idx (max delta 0) (le_max_right delta 0) i
      · intro hd
        have hmax : max delta 0 = 0 := max_eq_right hd
        rw [hmax, add_zero, set_get?_self t.rowHeights idx v hg]
      · intro h
        exact absurd h (by decide)
      · intro _ hlen
        exact absurd hlt (by omega)
      · intro h
        exact absurd h (by decide)
      · intro _ _
        dsimp only
        rw [hgD]
        exact ⟨rfl, rfl⟩
      · rfl
      · rfl

/-! ## Region geometry: divider hit-testing and cell lookup
(src/tabular.rs, struct Region) -/

/-- DividerHit: a divider the cursor is near. (Source equality ignores
original_size; equality is not needed here.) -/
structure DividerHit where
  axis : Axis
  index : Nat
  originalSize : Rat
deriving DecidableEq, Repr

/-- The geometry engine state (struct Region), with f32 fields as exact
rationals. -/
structure Region where
  rowCount : Nat
  columnCount : Nat
  rawRows : List Rat
  rawColumns : List Rat
  scaledRows : List Rat
  scaledColumns : List Rat
  scaleFactorX : Rat
  scaleFactorY : Rat
  cumulativeX : List Rat
  cumulativeY : List Rat
  spacingW : Rat
  spacingH : Rat
deriving DecidableEq, Repr

/-- Region::RESIZE_AREA, the divider hit tolerance in layout units. -/
def resizeArea : Rat := 4

/-- Region::new: raw size = declared size + spacing per axis; scaled and
cumulative arrays zero-initialized at the declared counts. -/
def Region.new (columns rows : List Rat) (spacingW spacingH : Rat)
    (rowCount columnCount : Nat) : Region :=
  { rowCount := rowCount,
    columnCount := columnCount,
    rawColumns := columns.map (fun w => w + spacingW),
    rawRows := rows.map (fun h => h + spacingH),
    scaledColumns := List.replicate columnCount 0,
    scaledRows := List.replicate rowCount 0,
    cumulativeX := List.replicate columnCount 0,
    cumulativeY := List.replicate rowCount 0,
    scaleFactorX := 1,
    scaleFactorY := 1,
    spacingW := spacingW,
    spacingH := spacingH }

/-- total_raw_width. -/
def Region.totalRawWidth (r : Region) : Rat := r.rawColumns.sum

/-- total_raw_height. -/
def Region.totalRawHeight (r : Region) : Rat := r.rawRows.sum

/-- The zipped update of scale_to_bounds: scaled[i] = raw[i] / total *
bound; the iterator zip stops at the shorter list, leaving any scaled tail
unchanged. -/
def scaleList (scaled raw : List Rat) (total bound : Rat) : List Rat :=
  match scaled, raw with
  | _ :: ss, rw => match rw with
    | r :: rs => (r / total * bound) :: scaleList ss rs total bound
    | [] => scaled
  | [], _ => []

/-- The running-sum loop filling the cumulative arrays. -/
def prefixSums (acc : Rat) : List Rat → List Rat
  | [] => []
  | x :: xs => (acc + x) :: prefixSums (acc + x) xs

/-- Region::scale_to_bounds. For every region the widget builds, the scaled
and cumulative arrays have equal lengths, so the index-assignment loop of
the source is the prefix-sum of the freshly scaled sizes. Rational division
by a zero total yields 0 where f32 would give a non-finite value. -/
def Region.scaleToBounds (r : Region) (width height spacingW spacingH : Rat) :
    Region :=
  let totalW := r.totalRawWidth
  let totalH := r.totalRawHeight
  let scaledCols := scaleList r.scaledColumns r.rawColumns totalW width
  let scaledRows := scaleList r.scaledRows r.rawRows totalH height
  { r with
    spacingW := spacingW,
    spacingH := spacingH,
    scaledColumns := scaledCols,
    scaledRows := scaledRows,
    cumulativeX := prefixSums 0 scaledCols,
    cumulativeY := prefixSums 0 scaledRows,
    scaleFactorX := width / totalW,
    scaleFactorY := height / totalH }

/-- The result of slice::binary_search_by. -/
inductive BinSearch where
  | found (i : Nat)
  | notFound (i : Nat)
deriving DecidableEq, Repr

/-- The loop of core slice::binary_search_by, with the comparator
cum.partial_cmp(pos).unwrap_or(Equal): Less moves left past mid, Greater
moves right to mid, Equal returns Ok(mid). -/
def binarySearchLoop (cum : List Rat) (pos : Rat) (left right : Nat) : BinSearch :=
  if _h : left < right then
    let size := right - left
    let mid := left + size / 2
    let c := cum.getD mid 0
    if c < pos then binarySearchLoop cum pos (mid + 1) right
    else if pos < c then binarySearchLoop cum pos left mid
    else .found mid
  else .notFound left
termination_by right - left
decreasing_by
  all_goals omega

/-- cumulative.binary_search_by(...) over the whole slice. -/
def binarySearchBy (cum : List Rat) (pos : Rat) : BinSearch :=
  binarySearchLoop cum pos 0 cum.length

/-- The candidate-boundary computation of find_nearest: past the end take
the last index when one exists, at the front take index 0, otherwise the
two indices around the insertion point. -/
def nearestCandidates (len idx : Nat) : Option (List Nat) :=
  if len ≤ idx then
    match len with
    | 0 => none
    | m + 1 => some [m]
  else if idx = 0 then some [0]
  else some [idx - 1, idx]

/-- The per-candidate acceptance test of find_nearest: fetch the boundary
and raw size, and accept when the divider position (cumulative - spacing/2)
is within the tolerance of the position. -/
def nearestAccept (pos : Rat) (cumulative : List Rat) (spacing : Rat)
    (rawSizes : List Rat) (i : Nat) : Option (Nat × Rat) :=
  (cumulative.get? i).bind fun cumPos =>
    (rawSizes.get? i).bind fun rawSize =>
      let dividerPos := cumPos - spacing / 2
      if |pos - dividerPos| ≤ resizeArea then some (i, rawSize - spacing)
      else none

/-- The inner find_nearest of Region::find_nearest_divider: take the
insertion index, gather the 1-2 adjacent candidate boundaries, and accept
the first candidate within tolerance. -/
def findNearest (pos : Rat) (cumulative : List Rat) (spacing : Rat)
    (rawSizes : List Rat) : Option (Nat × Rat) :=
  let idx := match binarySearchBy cumulative pos with
    | .found i => i
    | .notFound i => i
  (nearestCandidates cumulative.length idx).bind fun cands =>
    cands.findSome? (nearestAccept pos cumulative spacing rawSizes)

/-- Region::find_nearest_divider: vertical (column) dividers first, then
horizontal (row) dividers. -/
def Region.findNearestDivider (r : Region) (px py : Rat) : Option DividerHit :=
  match findNearest px r.cumulativeX r.spacingW r.rawColumns with
  | some (idx, originalSize) => some ⟨.column, idx, originalSize⟩
  | none =>
    match findNearest py r.cumulativeY r.spacingH r.rawRows with
    | some (idx, originalSize) => some ⟨.row, idx, originalSize⟩
    | none => none

/-- The find_index helper of Region::find_cell: the found or insertion
index, clamped to the last valid index. -/
def findIndex (pos : Rat) (cumulative : List Rat) : Nat :=
  match binarySearchBy cumulative pos with
  | .found idx => idx
  | .notFound idx => min idx (cumulative.length - 1)

/-- Region::find_cell, returning (column, row) in that order. -/
def Region.findCell (r : Region) (px py : Rat) : Nat × Nat :=
  (findIndex px r.cumulativeX, findIndex py r.cumulativeY)

lemma findSome?_eq_none_of {α β : Type} (f : α → Option β) (l : List α)
    (h : ∀ a ∈ l, f a = none) : l.findSome? f = none := by
  induction l with
  | nil => rfl
  | cons a tl ih =>
    rw [List.findSome?]
    rw [h a (List.mem_cons_self _ _)]
    exact ih (fun x hx => h x (List.mem_cons_of_mem _ hx))

lemma exists_of_findSome?_some {α β : Type} (f : α → Option β) (l : List α)
    (b : β) (h : l.findSome? f = some b) : ∃ a ∈ l, f a = some b := by
  induction l with
  | nil => simp [List.findSome?] at h
  | cons a tl ih =>
    rw [List.findSome?] at h
    rcases hf : f a with _ | v
    · simp only [hf] at h
      obtain ⟨x, hx, hfx⟩ := ih h
      exact ⟨x, List.mem_cons_of_mem _ hx, hfx⟩
    · simp only [hf] at h
      exact ⟨a, List.mem_cons_self _ _, hf.trans h⟩

lemma bind_findSome?_none {α : Type} (f : α → Option (Nat × Rat))
    (o : Option (List α)) (h : ∀ i, f i = none) :
    (o.bind fun cands => cands.findSome? f) = none := by
  cases o with
  | none => rfl
  | some cands => exact findSome?_eq_none_of f cands (fun a _ => h a)

lemma findNearest_none_of_far (pos spacing : Rat) (cum raw : List Rat)
    (h : ∀ i, i < cum.length →
      ¬ |pos - (cum.getD i 0 - spacing / 2)| ≤ resizeArea) :
    findNearest pos cum spacing raw = none := by
  unfold findNearest
  dsimp only
  apply bind_findSome?_none
  intro i
  unfold nearestAccept
  rcases hc : cum.get? i with _ | c
  · rfl
  · rcases hr : raw.get? i with _ | rv
    · rfl
    · obtain ⟨hi, -⟩ := List.get?_eq_some.mp hc
      have hcD : cum.getD i 0 = c := by
        rw [List.getD_eq_getD_get?, hc, Option.getD_some]
      simp only [Option.some_bind]
      rw [if_neg (by rw [← hcD]; exact h i hi)]

lemma findNearest_sound (pos spacing : Rat) (cum raw : List Rat)
    (i : Nat) (sz : Rat)
    (h : findNearest pos cum spacing raw = some (i, sz)) :
    i < cum.length ∧ |pos - (cum.getD i 0 - spacing / 2)| ≤ resizeArea := by
  unfold findNearest at h
  dsimp only at h
  rcases ho : nearestCandidates cum.length (match binarySearchBy cum pos with
      | .found j => j
      | .notFound j => j) with _ | cands
  · rw [ho] at h
    simp at h
  · rw [ho] at h
    have h2 : cands.findSome? (nearestAccept pos cum spacing raw)
        = some (i, sz) := h
    obtain ⟨a, -, hfa⟩ := exists_of_findSome?_some _ _ _ h2
    unfold nearestAccept at hfa
    rcases hc : cum.get? a with _ | c
    · rw [hc] at hfa
      simp at hfa
    · rcases hr : raw.get? a with _ | rv
      · rw [hc, hr] at hfa
        simp at hfa
      · rw [hc, hr] at hfa
        simp only [Option.some_bind] at hfa
        by_cases htol : |pos - (c - spacing / 2)| ≤ resizeArea
        · rw [if_pos htol] at hfa
          simp only [Option.some.injEq, Prod.mk.injEq] at hfa
          obtain ⟨rfl, -⟩ := hfa
          obtain ⟨hi, -⟩ := List.get?_eq_some.mp hc
          have hcD : cum.getD a 0 = c := by
            rw [List.getD_eq_getD_get?, hc, Option.getD_some]
          rw [hcD]
          exact ⟨hi, htol⟩
        · rw [if_neg htol] at hfa
          simp at hfa

/-- C9 (amended): find_nearest_divider returns None whenever the point is
farther than the 4-unit tolerance from every divider position (cumulative
boundary minus spacing/2) on both axes; whenever it returns a hit, the
point is within tolerance of that divider; and the column axis is searched
first, so a row hit is only returned when the column search failed.
However, within-tolerance points can still get None: the binary search uses
the raw coordinate without the spacing/2 offset, so the 1-2 candidates it
examines can all miss a divider that is within tolerance. -/
theorem findNearestDivider_characterization :
    (∀ (r : Region) (px py : Rat),
      (∀ i, i < r.cumulativeX.length →
        ¬ |px - (r.cumulativeX.getD i 0 - r.spacingW / 2)| ≤ resizeArea) →
      (∀ j, j < r.cumulativeY.length →
        ¬ |py - (r.cumulativeY.getD j 0 - r.spacingH / 2)| ≤ resizeArea) →
      r.findNearestDivider px py = none)
    ∧ (∀ (r : Region) (px py : Rat) (hit : DividerHit),
      r.findNearestDivider px py = some hit →
      (hit.axis = .column →
        hit.index < r.cumulativeX.length
        ∧ |px - (r.cumulativeX.getD hit.index 0 - r.spacingW / 2)| ≤ resizeArea)
      ∧ (hit.axis = .row →
        hit.index < r.cumulativeY.length
        ∧ |py - (r.cumulativeY.getD hit.index 0 - r.spacingH / 2)| ≤ resizeArea
        ∧ findNearest px r.cumulativeX r.spacingW r.rawColumns = none)) := by
  constructor
  · intro r px py hx hy
    unfold Region.findNearestDivider
    rw [findNearest_none_of_far px r.spacingW r.cumulativeX r.rawColumns hx,
      findNearest_none_of_far py r.spacingH r.cumulativeY r.rawRows hy]
  · intro r px py hit hsome
    unfold Region.findNearestDivider at hsome
    rcases hcol : findNearest px r.cumulativeX r.spacingW r.rawColumns with _ | p
    · rcases hrow : findNearest py r.cumulativeY r.spacingH r.rawRows with _ | q
      · rw [hcol, hrow] at hsome
        simp at hsome
      · obtain ⟨qi, qs⟩ := q
        rw [hcol, hrow] at hsome
        simp only [Option.some.injEq] at hsome
        subst hsome
        constructor
        · intro hax
          simp at hax
        · intro _
          obtain ⟨hlt, htol⟩ :=
            findNearest_sound py r.spacingH r.cumulativeY r.rawRows qi qs hrow
          exact ⟨hlt, htol, rfl⟩
    · obtain ⟨pi, ps⟩ := p
      rw [hcol] at hsome
      simp only [Option.some.injEq] at hsome
      subst hsome
      constructor
      · intro _
        exact findNearest_sound px r.spacingW r.cumulativeX r.rawColumns pi ps hcol
      · intro hax
        simp at hax

/-- A concrete Region built through the source path: three columns of
declared sizes 0, 0 and 16, spacing 16, no rows, scaled to width 32:
raw columns [16, 16, 32], scaled [8, 8, 16], cumulative [8, 16, 32],
dividers at 0, 8 and 24. -/
def regionC9 : Region :=
  (Region.new [0, 0, 16] [] 16 16 0 3).scaleToBounds 32 0 16 16

lemma regionC9_eq : regionC9 = ⟨0, 3, [], [16, 16, 32], [], [8, 8, 16],
    1/2, 0, [8, 16, 32], [], 16, 16⟩ := by
  unfold regionC9 Region.new Region.scaleToBounds Region.totalRawWidth
    Region.totalRawHeight
  norm_num [scaleList, prefixSums, Region.mk.injEq]

lemma binarySearchBy_c9 : binarySearchBy [8, 16, 32] 6 = .notFound 0 := by
  unfold binarySearchBy
  rw [binarySearchLoop]
  norm_num [List.getD, List.get?]
  rw [binarySearchLoop]
  norm_num [List.getD, List.get?]
  rw [binarySearchLoop]
  norm_num

lemma binarySearchBy_c9row : binarySearchBy ([] : List Rat) 0 = .notFound 0 := by
  unfold binarySearchBy
  rw [binarySearchLoop]
  norm_num

lemma findNearest_c9col : findNearest 6 [8, 16, 32] 16 [16, 16, 32] = none := by
  unfold findNearest
  rw [binarySearchBy_c9]
  norm_num [nearestCandidates, List.findSome?, nearestAccept, List.get?,
    resizeArea]

lemma findNearest_c9row : findNearest 0 ([] : List Rat) 16 [] = none := by
  unfold findNearest
  rw [binarySearchBy_c9row]
  norm_num [nearestCandidates]

/-- Counterexample for C9: in regionC9, the point x = 6 is within distance
2 of the column divider at index 1 (position 16 - 16/2 = 8), yet the search
returns None: the insertion point for 6 in [8, 16, 32] is 0, so only the
divider at index 0 (position 0, distance 6) is ever examined. -/
theorem findNearestDivider_misses_within_tolerance :
    regionC9.cumulativeX.getD 1 0 - regionC9.spacingW / 2 = 8
    ∧ |(6 : Rat) - 8| ≤ resizeArea
    ∧ regionC9.findNearestDivider 6 0 = none := by
  rw [regionC9_eq]
  refine ⟨by norm_num [List.getD, List.get?],
    by rw [resizeArea, abs_le]; constructor <;> norm_num, ?_⟩
  unfold Region.findNearestDivider
  dsimp only
  simp only [findNearest_c9col, findNearest_c9row]

/-- Witness for C9 (amended): the none-when-far direction evaluated at
x = 100 in regionC9 (dividers at 0, 8, 24; distances 100, 92, 76). -/
theorem findNearestDivider_characterization_witness :
    (∀ i, i < regionC9.cumulativeX.length →
      ¬ |(100 : Rat) - (regionC9.cumulativeX.getD i 0 - regionC9.spacingW / 2)|
        ≤ resizeArea)
    ∧ regionC9.findNearestDivider 100 0 = none := by
  have h1 : ∀ i, i < regionC9.cumulativeX.length →
      ¬ |(100 : Rat) - (regionC9.cumulativeX.getD i 0 - regionC9.spacingW / 2)|
        ≤ resizeArea := by
    rw [regionC9_eq]
    intro i hi
    norm_num at hi
    interval_cases i <;>
      norm_num [List.getD, List.get?, resizeArea]
  have h2 : ∀ j, j < regionC9.cumulativeY.length →
      ¬ |(0 : Rat) - (regionC9.cumulativeY.getD j 0 - regionC9.spacingH / 2)|
        ≤ resizeArea := by
    rw [regionC9_eq]
    intro j hj
    norm_num at hj
  exact ⟨h1, findNearestDivider_characterization.1 regionC9 100 0 h1 h2⟩

/-! ## The click arm of Table::update (src/tabular.rs lines 531-598) -/

/-- mouse::click::Kind. -/
inductive ClickKind where
  | single
  | double
  | triple
deriving DecidableEq, Repr

/-- A mouse click with its position inside the widget bounds. -/
structure Click where
  kind : ClickKind
  posX : Rat
  posY : Rat
deriving DecidableEq, Repr

/-- The widget-internal Interaction state. -/
inductive Interaction where
  | none
  | resizeDivider (hit : DividerHit)
deriving DecidableEq, Repr

/-- The widget State relevant to click handling. -/
structure WidgetState where
  lastClick : Option Click
  dragClick : Option ClickKind
  interaction : Interaction
  isFocused : Bool
  region : Region
deriving DecidableEq, Repr

/-- A message published to the shell: an Action through on_edit or an
Instruction through on_instruction. -/
inductive Emitted where
  | action (a : Action)
  | instruction (i : Instruction)
deriving DecidableEq, Repr

/-- The observable outcome of one click update: the new widget state, the
published messages in order, whether the raw event was propagated to the
child widgets, and whether shell.capture_event was called. -/
structure UpdateOut where
  state : WidgetState
  published : List Emitted
  passedToChildren : Bool
  captured : Bool
deriving DecidableEq, Repr

/-- The Update::Click arm of Table::update, for an enabled table (with
on_edit registered; a disabled table drops the event before this arm).
Single: record the click, enter divider-resize mode on a divider hit
(no publish, no children); otherwise publish Select when the cell is
outside the host selection and pass to children only when passthrough is
set. Double/Triple: publish Select when the cell is outside the selection,
then Activate when an instruction handler is registered, then update every
child with the event, then capture it. -/
def updateClick (passthrough hasOnInstruction : Bool) (dataSelection : Range)
    (st : WidgetState) (click : Click) : UpdateOut :=
  match click.kind with
  | .single =>
    let st1 := { st with lastClick := some click, dragClick := some ClickKind.single }
    match st1.region.findNearestDivider click.posX click.posY with
    | some dividerHit =>
      let st2 := { st1 with interaction := Interaction.resizeDivider dividerHit, isFocused := true }
      { state := st2, published := [], passedToChildren := false, captured := false }
    | none =>
      let cell := st1.region.findCell click.posX click.posY
      let cellRef : Address := ⟨cell.1, cell.2⟩
      if dataSelection.contains cellRef then
        { state := st1, published := [], passedToChildren := passthrough, captured := false }
      else
        let st2 := { st1 with isFocused := true }
        { state := st2, published := [.action (.select (Range.mk cellRef none))],
          passedToChildren := passthrough, captured := false }
  | .double | .triple =>
    let cell := st.region.findCell click.posX click.posY
    let cellRef : Address := ⟨cell.1, cell.2⟩
    let pub1 : List Emitted :=
      if dataSelection.contains cellRef then []
      else [.action (.select (Range.mk cellRef none))]
    let pub2 : List Emitted :=
      if hasOnInstruction then [.instruction (.activate cellRef)] else []
    { state := st, published := pub1 ++ pub2,
      passedToChildren := true, captured := true }

/-- A 2 x 2 region with 10-unit cells, no spacing, scaled to 20 x 20. -/
def regionC4 : Region :=
  (Region.new [10, 10] [10, 10] 0 0 2 2).scaleToBounds 20 20 0 0

lemma regionC4_eq : regionC4 = ⟨2, 2, [10, 10], [10, 10], [10, 10],
    [10, 10], 1, 1, [10, 20], [10, 20], 0, 0⟩ := by
  unfold regionC4 Region.new Region.scaleToBounds Region.totalRawWidth
    Region.totalRawHeight
  norm_num [scaleList, prefixSums, Region.mk.injEq]

lemma binarySearchBy_c4 : binarySearchBy [10, 20] 5 = .notFound 0 := by
  unfold binarySearchBy
  rw [binarySearchLoop]
  norm_num [List.getD, List.get?]
  rw [binarySearchLoop]
  norm_num [List.getD, List.get?]
  rw [binarySearchLoop]
  norm_num

lemma findCell_c4 : regionC4.findCell 5 5 = (0, 0) := by
  rw [regionC4_eq]
  unfold Region.findCell findIndex
  rw [binarySearchBy_c4]
  norm_num

/-- Counterexample for C4: a double click at (5,5) over cell (0,0), outside
the selection, in a widget with no instruction handler: the update emits
only Select (no Activate), and the event IS propagated to the child
widgets before being captured - double clicks always pass through, as the
source's own passthrough comment states. -/
theorem updateClick_double_passes_children :
    (updateClick false false (Range.mk ⟨1, 1⟩ none)
        ⟨none, none, .none, false, regionC4⟩ ⟨.double, 5, 5⟩).published
      = [.action (.select (Range.mk ⟨0, 0⟩ none))]
    ∧ (updateClick false false (Range.mk ⟨1, 1⟩ none)
        ⟨none, none, .none, false, regionC4⟩ ⟨.double, 5, 5⟩).passedToChildren
      = true := by
  unfold updateClick
  dsimp only
  rw [findCell_c4]
  norm_num [Range.contains]

/-- C4 (amended): for every double or triple click on a cell, the widget
publishes Select(cell) when the cell is outside the current selection,
followed by Activate(cell) when an instruction handler is registered, in
that order; the event is always captured, and it is always propagated to
the child widgets first; the widget state is unchanged. -/
theorem updateClick_double_triple (pt hOI : Bool) (sel : Range)
    (st : WidgetState) (c : Click)
    (hk : c.kind = .double ∨ c.kind = .triple) :
    updateClick pt hOI sel st c =
      { state := st,
        published :=
          (if sel.contains ⟨(st.region.findCell c.posX c.posY).1,
              (st.region.findCell c.posX c.posY).2⟩ then []
            else [.action (.select (Range.mk
              ⟨(st.region.findCell c.posX c.posY).1,
                (st.region.findCell c.posX c.posY).2⟩ none))])
          ++ (if hOI then [.instruction (.activate
              ⟨(st.region.findCell c.posX c.posY).1,
                (st.region.findCell c.posX c.posY).2⟩)] else []),
        passedToChildren := true,
        captured := true } := by
  obtain ⟨k, px, py⟩ := c
  dsimp only at hk
  rcases hk with hk | hk <;>
    subst hk <;>
    rfl

/-- Witness for C4 (amended): the double/triple behaviour evaluated on the
2 x 2 region with an instruction handler registered. -/
theorem updateClick_double_triple_witness :
    (ClickKind.double = ClickKind.double ∨ ClickKind.double = ClickKind.triple)
    ∧ updateClick false true (Range.mk ⟨1, 1⟩ none)
        ⟨none, none, .none, false, regionC4⟩ ⟨.double, 5, 5⟩ =
      { state := ⟨none, none, .none, false, regionC4⟩,
        published :=
          (if (Range.mk ⟨1, 1⟩ none).contains
              ⟨(regionC4.findCell 5 5).1, (regionC4.findCell 5 5).2⟩ then []
            else [.action (.select (Range.mk
              ⟨(regionC4.findCell 5 5).1, (regionC4.findCell 5 5).2⟩ none))])
          ++ [.instruction (.activate
              ⟨(regionC4.findCell 5 5).1, (regionC4.findCell 5 5).2⟩)],
        passedToChildren := true,
        captured := true } :=
  ⟨Or.inl rfl,
    updateClick_double_triple false true (Range.mk ⟨1, 1⟩ none)
      ⟨none, none, .none, false, regionC4⟩ ⟨.double, 5, 5⟩ (Or.inl rfl)⟩

/-- Witness for C10: the resize behaviour evaluated on the 3 x 3 table at
column index 1 with delta 2. -/
theorem perform_resizeDivider_witness :
    table3x3.colWidths.getD 1 0
        ≤ (table3x3.perform (.resizeDivider .column 1 2)).colWidths.getD 1 0
    ∧ (Axis.column = Axis.column ∧ 1 < table3x3.colWidths.length)
    ∧ (table3x3.perform (.resizeDivider .column 1 2)).colWidths
        = table3x3.colWidths.set 1 (table3x3.colWidths.getD 1 0 + max 2 0) :=
  ⟨(perform_resizeDivider table3x3 .column 1 2).1 1,
    ⟨rfl, by decide⟩,
    ((perform_resizeDivider table3x3 .column 1 2).2.2.2.2.2.1 rfl (by decide)).1⟩



end Tabular
